import Mathlib

set_option maxRecDepth 4000
set_option maxHeartbeats 1000000

/-!
Verification development for the cospend-cli caching, resolution and filtering
core.  The Go sources under `internal/cache/cache.go`, `cmd/list.go` and
`internal/api` are shallowly embedded: Go `int`/`int64` become `Int` (overflow
is not modelled; the embedded values all fit in 64 bits), Go `float64` becomes
`ℚ` (`strconv.ParseFloat`/JSON round-tripping of binary floats is exact, so the
exact rationals are a faithful stand-in for the decimal inputs exercised here),
Go errors become `Except String`, and the filesystem/clock are threaded as
explicit arguments.  Case mapping and whitespace trimming are modelled on the
ASCII range, which covers every string the claims exercise.
-/

namespace Cospend

/-! ## String helpers (models of Go `strings` / `strconv` functions) -/

/-- Whitespace test used by the model of `strings.TrimSpace` (ASCII range of
Go's `unicode.IsSpace`). -/
def isSpaceChar (c : Char) : Bool :=
  c == ' ' || c == '\t' || c == '\n' || c == '\r' ||
  c == '\x0b' || c == '\x0c'

/-- Trim leading and trailing whitespace from a character list. -/
def trimChars (cs : List Char) : List Char :=
  ((cs.dropWhile isSpaceChar).reverse.dropWhile isSpaceChar).reverse

/-- Model of Go `strings.TrimSpace`. -/
def strTrim (s : String) : String :=
  String.mk (trimChars s.toList)

/-- Model of Go `strings.ToLower` (ASCII case mapping, which covers the
inputs exercised by the specification). -/
def strLower (s : String) : String :=
  String.mk (s.toList.map Char.toLower)

/-- Model of Go `strings.ToUpper` (ASCII case mapping). -/
def strUpper (s : String) : String :=
  String.mk (s.toList.map Char.toUpper)

/-- Does `sub` occur as a contiguous substring of `cs`?  Helper for the model
of Go `strings.Contains`. -/
def listContains (sub : List Char) : List Char → Bool
  | [] => sub.isEmpty
  | c :: rest => sub.isPrefixOf (c :: rest) || listContains sub rest

/-- Model of Go `strings.Contains hay sub`. -/
def strContains (hay sub : String) : Bool :=
  listContains sub.toList hay.toList

/-- Strict byte-wise lexicographic comparison of character lists.  On the
ASCII strings compared by the embedded code (ISO dates), Go's byte-wise
`<` on strings agrees with this code-point comparison. -/
def lexLt : List Char → List Char → Bool
  | [], [] => false
  | [], _ :: _ => true
  | _ :: _, [] => false
  | a :: as, b :: bs => if a < b then true else if b < a then false else lexLt as bs

/-- Model of Go string comparison `a < b`. -/
def strLt (a b : String) : Bool :=
  lexLt a.toList b.toList

/-- Numeric value of a digit list (most significant first). -/
def digitsVal (cs : List Char) : Int :=
  cs.foldl (fun acc c => acc * 10 + ((c.toNat : Int) - 48)) 0

/-- Model of Go `strconv.Atoi`: optional sign followed by at least one
decimal digit.  (Go additionally errors when the value overflows `int`;
no collection in the embedded code can hold such an ID, so overflow is
not modelled.) -/
def atoiInt (s : String) : Option Int :=
  match s.toList with
  | [] => none
  | c :: rest =>
    let signed : Bool × List Char :=
      if c == '+' then (false, rest)
      else if c == '-' then (true, rest)
      else (false, c :: rest)
    if signed.2.isEmpty then none
    else if signed.2.all Char.isDigit then
      some (if signed.1 then -(digitsVal signed.2) else digitsVal signed.2)
    else none

/-- Exact rational value of a parsed decimal literal
`sign (ip . fp) * 10 ^ (esign * ed)`, built with `mkRat` so that it reduces
well in the kernel. -/
def ratOfDecimal (sign : Int) (ip fp : List Char) (esign : Int) (ed : List Char) : ℚ :=
  let scale : Int := (10 : Int) ^ fp.length
  let mant : Int := digitsVal ip * scale + digitsVal fp
  let e : Nat := (digitsVal ed).toNat
  if 0 ≤ esign then mkRat (sign * mant * (10 : Int) ^ e) scale.toNat
  else mkRat (sign * mant) (scale.toNat * 10 ^ e)

/-- Model of Go `strconv.ParseFloat` on plain decimal forms: optional sign,
digits with an optional fractional part, and an optional decimal exponent.
(Go additionally accepts hex floats, `Inf`/`NaN` and digit-separating
underscores; none of those forms reach this parser in the embedded code's
specified behaviour.)  The value is the exact rational denoted by the
literal. -/
def parseFloatQ (s : String) : Option ℚ :=
  let signed : Int × List Char :=
    match s.toList with
    | '+' :: t => (1, t)
    | '-' :: t => (-1, t)
    | cs => (1, cs)
  let ip := signed.2.takeWhile Char.isDigit
  let afterInt := signed.2.dropWhile Char.isDigit
  let fracRest : List Char × List Char :=
    match afterInt with
    | '.' :: t => (t.takeWhile Char.isDigit, t.dropWhile Char.isDigit)
    | _ => ([], afterInt)
  let fp := fracRest.1
  if ip.isEmpty && fp.isEmpty then none
  else
    match fracRest.2 with
    | [] => some (ratOfDecimal signed.1 ip fp 1 [])
    | e :: t =>
      if e == 'e' || e == 'E' then
        let esigned : Int × List Char :=
          match t with
          | '+' :: t2 => (1, t2)
          | '-' :: t2 => (-1, t2)
          | t2 => (1, t2)
        let ed := esigned.2.takeWhile Char.isDigit
        if ed.isEmpty || !(esigned.2.dropWhile Char.isDigit).isEmpty then none
        else some (ratOfDecimal signed.1 ip fp esigned.1 ed)
      else none

/-! ## Data model (structs from `internal/api`) -/

/-- Member of a project (`api.Member`). -/
structure Member where
  id : Int
  name : String
  userID : String
  activated : Bool
deriving DecidableEq, Repr

/-- Bill category (`api.Category`). -/
structure Category where
  id : Int
  name : String
  icon : String
  color : String
deriving DecidableEq, Repr

/-- Payment mode (`api.PaymentMode`). -/
structure PaymentMode where
  id : Int
  name : String
  icon : String
  color : String
deriving DecidableEq, Repr

/-- Currency (`api.Currency`); `exchangeRate` models the Go `float64`. -/
structure Currency where
  id : Int
  name : String
  exchangeRate : ℚ
deriving DecidableEq, Repr

/-- Project snapshot (`api.Project`). -/
structure Project where
  id : String
  name : String
  currencyName : String
  members : List Member
  categories : List Category
  paymentModes : List PaymentMode
  currencies : List Currency
deriving DecidableEq, Repr

/-- Nextcloud user info (`api.UserInfo`). -/
structure UserInfo where
  locale : String
  language : String
deriving DecidableEq, Repr

/-- Member owing a share of a bill (`api.Ower`). -/
structure Ower where
  id : Int
  weight : ℚ
deriving DecidableEq, Repr

/-- Bill as returned by the API (`api.BillResponse`). -/
structure BillResponse where
  id : Int
  what : String
  amount : ℚ
  date : String
  payerID : Int
  owers : List Ower
  comment : String
  paymentModeID : Int
  categoryID : Int
  repeat_ : String
  timestamp : Int
deriving DecidableEq, Repr

/-! ## Symbol/code table (`currencyCodeToSymbol` in `internal/cache/cache.go`).
The Go map is modelled as an association list in source order; map lookup is
`List.lookup` (the keys are distinct). -/

/-- The static code-to-symbol table, entries in source order. -/
def currencyCodeToSymbol : List (String × String) := [
  ("aed", "د.إ"),
  ("afn", "؋"),
  ("all", "Lek"),
  ("amd", "դր."),
  ("ars", "$"),
  ("aud", "$"),
  ("azn", "ман."),
  ("bam", "KM"),
  ("bdt", "৳"),
  ("bgn", "лв."),
  ("bhd", "د.ب."),
  ("bif", "FBu"),
  ("bnd", "$"),
  ("bob", "Bs"),
  ("brl", "R$"),
  ("bwp", "P"),
  ("byn", "руб."),
  ("bzd", "$"),
  ("cad", "$"),
  ("cdf", "FrCD"),
  ("chf", "CHF"),
  ("clp", "$"),
  ("cny", "¥"),
  ("cop", "$"),
  ("crc", "₡"),
  ("cup", "$"),
  ("cve", "CV$"),
  ("czk", "Kč"),
  ("djf", "Fdj"),
  ("dkk", "kr"),
  ("dop", "RD$"),
  ("dzd", "د.ج."),
  ("egp", "ج.م."),
  ("etb", "Br"),
  ("eur", "€"),
  ("gbp", "£"),
  ("gel", "GEL"),
  ("ghs", "GH₵"),
  ("gnf", "FG"),
  ("gtq", "Q"),
  ("hkd", "$"),
  ("hnl", "L"),
  ("huf", "Ft"),
  ("idr", "Rp"),
  ("ils", "₪"),
  ("inr", "₹"),
  ("iqd", "د.ع."),
  ("irr", "﷼"),
  ("isk", "kr"),
  ("jmd", "$"),
  ("jod", "د.أ."),
  ("jpy", "¥"),
  ("kes", "Ksh"),
  ("khr", "៛"),
  ("kmf", "FC"),
  ("krw", "₩"),
  ("kwd", "د.ك."),
  ("kzt", "тңг."),
  ("lbp", "ل.ل."),
  ("lkr", "Rs"),
  ("lyd", "د.ل."),
  ("mad", "د.م."),
  ("mdl", "MDL"),
  ("mga", "MGA"),
  ("mkd", "MKD"),
  ("mmk", "K"),
  ("mop", "MOP$"),
  ("mur", "MURs"),
  ("mxn", "$"),
  ("myr", "RM"),
  ("mzn", "MTn"),
  ("nad", "N$"),
  ("ngn", "₦"),
  ("nio", "C$"),
  ("nok", "kr"),
  ("npr", "Rs"),
  ("nzd", "$"),
  ("omr", "ر.ع."),
  ("pab", "B/."),
  ("pen", "S/."),
  ("php", "₱"),
  ("pkr", "₨"),
  ("pln", "zł"),
  ("pyg", "₲"),
  ("qar", "ر.ق."),
  ("ron", "RON"),
  ("rsd", "дин."),
  ("rub", "₽"),
  ("rwf", "FR"),
  ("sar", "﷼"),
  ("sdg", "SDG"),
  ("sek", "kr"),
  ("sgd", "$"),
  ("sos", "Ssh"),
  ("thb", "฿"),
  ("tnd", "د.ت."),
  ("top", "T$"),
  ("try", "₺"),
  ("ttd", "$"),
  ("twd", "NT$"),
  ("tzs", "TSh"),
  ("uah", "₴"),
  ("ugx", "USh"),
  ("usd", "$"),
  ("uyu", "$"),
  ("uzs", "UZS"),
  ("vnd", "₫"),
  ("xaf", "FCFA"),
  ("xcd", "EC$"),
  ("xof", "CFA"),
  ("yer", "ر.ي."),
  ("zar", "R")
]

/-! ## Resolver (`ResolveMember` / `ResolveCategory` / `ResolvePaymentMode` /
`ResolveCurrency` from `internal/cache/cache.go`) -/

/-- Model of `cache.ResolveMember`: case-insensitive match of a member's
`Name` or `UserID`; the first match in collection order wins. -/
def ResolveMember (project : Project) (username : String) : Except String Int :=
  let lowerUsername := strLower username
  match project.members.find? (fun m =>
      strLower m.name == lowerUsername || strLower m.userID == lowerUsername) with
  | some m => .ok m.id
  | none => .error ("member not found: " ++ username)

/-- Model of `cache.ResolveCategory`: empty-token guard, then literal ID,
then case-insensitive exact name, then case-insensitive substring. -/
def ResolveCategory (project : Project) (nameOrID : String) : Except String Int :=
  if nameOrID == "" then .error ("category not found: " ++ nameOrID)
  else
    match
      (match atoiInt nameOrID with
       | some id => if project.categories.any (fun c => c.id == id) then some id else none
       | none => none) with
    | some id => .ok id
    | none =>
      let lowerName := strLower nameOrID
      match project.categories.find? (fun c => strLower c.name == lowerName) with
      | some c => .ok c.id
      | none =>
        match project.categories.find? (fun c => strContains (strLower c.name) lowerName) with
        | some c => .ok c.id
        | none => .error ("category not found: " ++ nameOrID)

/-- Model of `cache.ResolvePaymentMode` (same strategy chain as categories). -/
def ResolvePaymentMode (project : Project) (nameOrID : String) : Except String Int :=
  if nameOrID == "" then .error ("payment mode not found: " ++ nameOrID)
  else
    match
      (match atoiInt nameOrID with
       | some id => if project.paymentModes.any (fun pm => pm.id == id) then some id else none
       | none => none) with
    | some id => .ok id
    | none =>
      let lowerName := strLower nameOrID
      match project.paymentModes.find? (fun pm => strLower pm.name == lowerName) with
      | some pm => .ok pm.id
      | none =>
        match project.paymentModes.find? (fun pm => strContains (strLower pm.name) lowerName) with
        | some pm => .ok pm.id
        | none => .error ("payment mode not found: " ++ nameOrID)

/-- Model of `cache.ResolveCurrency`: literal ID, then case-insensitive exact
name, then the code-to-symbol table followed by a substring search of the
(unlowered) currency names for the symbol. -/
def ResolveCurrency (project : Project) (nameOrID : String) : Except String Currency :=
  match
    ((match atoiInt nameOrID with
      | some id => project.currencies.find? (fun c => c.id == id)
      | none => none) : Option Currency) with
  | some c => .ok c
  | none =>
    let lowerName := strLower nameOrID
    match project.currencies.find? (fun c => strLower c.name == lowerName) with
    | some c => .ok c
    | none =>
      match currencyCodeToSymbol.lookup lowerName with
      | some symbol =>
        match project.currencies.find? (fun c => strContains c.name symbol) with
        | some c => .ok c
        | none => .error ("currency not found: " ++ nameOrID)
      | none => .error ("currency not found: " ++ nameOrID)

/-! ## Reverse symbol lookup (`SymbolToISO` in `internal/cache/cache.go`).
The Go implementation builds `symbolToISOMap` once per process under a
`sync.Once`: a bulk pass inserts every `(code, symbol)` pair of the map in
Go's (randomised) map-iteration order, last write winning, and a second pass
re-inserts the preferred codes.  The iteration order is modelled as an
explicit argument: a run of the process corresponds to some permutation of
the table. -/

/-- Insertion into the modelled `map[string]string` (later writes win). -/
def mapInsert (m : String → Option String) (k v : String) : String → Option String :=
  fun x => if x == k then some v else m x

/-- Build `symbolToISOMap` from a given bulk-pass iteration `order`. -/
def buildSymbolToISO (order : List (String × String)) : String → Option String :=
  let bulk := order.foldl (fun m cs => mapInsert m cs.2 (strUpper cs.1)) (fun _ => none)
  ["usd", "cny", "gbp", "eur"].foldl
    (fun m code =>
      match currencyCodeToSymbol.lookup code with
      | some sym => mapInsert m sym (strUpper code)
      | none => m) bulk

/-- Model of `cache.SymbolToISO` for a process whose bulk pass iterated the
table in `order`. -/
def SymbolToISO (order : List (String × String)) (symbol : String) : String :=
  match buildSymbolToISO order symbol with
  | some iso => iso
  | none => ""

example : SymbolToISO currencyCodeToSymbol "$" = "USD" := by decide
example : SymbolToISO currencyCodeToSymbol "kr" = "SEK" := by decide
example : SymbolToISO currencyCodeToSymbol.reverse "kr" = "DKK" := by decide

example : atoiInt "42" = some 42 := by decide
example : atoiInt "-7" = some (-7) := by decide
example : atoiInt "4a" = none := by decide
example : strContains "seafood" "foo" = true := by decide
example : parseFloatQ "49.99" = some (mkRat 4999 100) := by decide
example : parseFloatQ "abc" = none := by decide

/-! ## JSON model and the cache store (`internal/cache/cache.go`,
`api.Project` custom (un)marshalling from `internal/api`).

JSON documents are modelled structurally: numbers carry their exact value as
a rational (Go round-trips `float64` values exactly), and the RFC 3339
timestamp of `time.Time` is modelled by an integer number of seconds (the
string encoding is injective, so an integer is a faithful stand-in).  Go's
`encoding/json` object keys are looked up by name; for a struct field the
zero value is used when the key is missing or its value is `null`, and a
value of the wrong shape is an unmarshalling error. -/

/-- Structural JSON values. -/
inductive Json where
  | null
  | bool (b : Bool)
  | num (q : ℚ)
  | str (s : String)
  | arr (items : List Json)
  | obj (fields : List (String × Json))

/-- Look up a key in a JSON object's field list. -/
def getJField : List (String × Json) → String → Option Json
  | [], _ => none
  | (k, v) :: rest, key => if key == k then some v else getJField rest key

/-- Decode a JSON value into a Go `int` field (zero on `null`). -/
def jsonToInt : Json → Option Int
  | .num q => if q.den == 1 then some q.num else none
  | .null => some 0
  | _ => none

/-- Decode a JSON value into a Go `string` field (zero on `null`). -/
def jsonToStr : Json → Option String
  | .str s => some s
  | .null => some ""
  | _ => none

/-- Decode a JSON value into a Go `bool` field (zero on `null`). -/
def jsonToBool : Json → Option Bool
  | .bool b => some b
  | .null => some false
  | _ => none

/-- Decode a JSON value into a Go `float64` field (zero on `null`). -/
def jsonToRat : Json → Option ℚ
  | .num q => some q
  | .null => some 0
  | _ => none

/-- Decode a struct field: the default is used when the key is absent. -/
def fieldD (fields : List (String × Json)) (key : String)
    (dec : Json → Option α) (dflt : α) : Option α :=
  match getJField fields key with
  | none => some dflt
  | some v => dec v

/-- Strict decoding of `api.Member` (stock `encoding/json` struct decoding:
an object or `null`; a mistyped field is an error). -/
def decodeMember : Json → Option Member
  | .obj fields => do
      let id ← fieldD fields "id" jsonToInt 0
      let name ← fieldD fields "name" jsonToStr ""
      let userID ← fieldD fields "userid" jsonToStr ""
      let activated ← fieldD fields "activated" jsonToBool false
      pure ⟨id, name, userID, activated⟩
  | .null => some ⟨0, "", "", false⟩
  | _ => none

/-- Strict decoding of `api.Category`. -/
def decodeCategory : Json → Option Category
  | .obj fields => do
      let id ← fieldD fields "id" jsonToInt 0
      let name ← fieldD fields "name" jsonToStr ""
      let icon ← fieldD fields "icon" jsonToStr ""
      let color ← fieldD fields "color" jsonToStr ""
      pure ⟨id, name, icon, color⟩
  | .null => some ⟨0, "", "", ""⟩
  | _ => none

/-- Strict decoding of `api.PaymentMode`. -/
def decodePaymentMode : Json → Option PaymentMode
  | .obj fields => do
      let id ← fieldD fields "id" jsonToInt 0
      let name ← fieldD fields "name" jsonToStr ""
      let icon ← fieldD fields "icon" jsonToStr ""
      let color ← fieldD fields "color" jsonToStr ""
      pure ⟨id, name, icon, color⟩
  | .null => some ⟨0, "", "", ""⟩
  | _ => none

/-- Strict decoding of `api.Currency`. -/
def decodeCurrency : Json → Option Currency
  | .obj fields => do
      let id ← fieldD fields "id" jsonToInt 0
      let name ← fieldD fields "name" jsonToStr ""
      let exchangeRate ← fieldD fields "exchange_rate" jsonToRat 0
      pure ⟨id, name, exchangeRate⟩
  | .null => some ⟨0, "", 0⟩
  | _ => none

/-- Lenient string field of `Project.UnmarshalJSON`: the Go code ignores the
error of `json.Unmarshal(v, &p.Field)`, leaving the zero value in place. -/
def lenientStr (fields : List (String × Json)) (key : String) : String :=
  match getJField fields key with
  | some v => (jsonToStr v).getD ""
  | none => ""

/-- Element-wise decoding of a JSON array into a Go slice: the first
element error fails the whole decode. -/
def decodeList (dec : Json → Option α) : List Json → Option (List α)
  | [] => some []
  | j :: rest => do
      let a ← dec j
      let t ← decodeList dec rest
      pure (a :: t)

/-- Decoding of the object-keyed-by-ID form of categories/payment modes:
each value is decoded and a numeric key overrides the record's ID (the
`strconv.Atoi` applied to the map key in `parseCategories`). -/
def decodeKeyed (dec : Json → Option α) (setId : Int → α → α) :
    List (String × Json) → Option (List α)
  | [] => some []
  | (k, v) :: rest => do
      let a ← dec v
      let t ← decodeKeyed dec setId rest
      pure ((match atoiInt k with
             | some id => setId id a
             | none => a) :: t)

/-- Lenient slice field of `Project.UnmarshalJSON`: on any decoding error the
error is ignored and the slice is left empty.  (Go may leave a partially
decoded prefix behind the ignored error; no embedded behaviour depends on
that prefix, so the model keeps the zero value.) -/
def lenientArr (fields : List (String × Json)) (key : String)
    (dec : Json → Option α) : List α :=
  match getJField fields key with
  | some (.arr items) => (decodeList dec items).getD []
  | _ => []

/-- Model of `api.parseCategories`: first try the object-keyed-by-ID form
(where a numeric key overrides the record's `id`, and `null` decodes as the
empty map), then fall back to the plain array form; on total failure the
result is the empty slice. -/
def parseCategories : Option Json → List Category
  | some (.obj fields) =>
      match decodeKeyed decodeCategory (fun id c => { c with id := id }) fields with
      | some cats => cats
      | none => []
  | some (.arr items) => (decodeList decodeCategory items).getD []
  | some .null => []
  | _ => []

/-- Model of `api.parsePaymentModes` (same two-attempt shape). -/
def parsePaymentModes : Option Json → List PaymentMode
  | some (.obj fields) =>
      match decodeKeyed decodePaymentMode (fun id pm => { pm with id := id }) fields with
      | some pms => pms
      | none => []
  | some (.arr items) => (decodeList decodePaymentMode items).getD []
  | some .null => []
  | _ => []

/-- Model of `Project.UnmarshalJSON`: the payload must be a JSON object (the
`map[string]json.RawMessage` decoding fails otherwise); every field is then
decoded leniently with errors ignored. -/
def decodeProject : Json → Option Project
  | .obj fields => some {
      id := lenientStr fields "id"
      name := lenientStr fields "name"
      currencyName := lenientStr fields "currencyname"
      members := lenientArr fields "members" decodeMember
      categories := parseCategories (getJField fields "categories")
      paymentModes := parsePaymentModes (getJField fields "paymentmodes")
      currencies := lenientArr fields "currencies" decodeCurrency }
  | _ => none

/-- Encoding of `api.Member` by `encoding/json`. -/
def encodeMember (m : Member) : Json :=
  .obj [("id", .num (m.id : ℚ)), ("name", .str m.name),
        ("userid", .str m.userID), ("activated", .bool m.activated)]

/-- Encoding of `api.Category`. -/
def encodeCategory (c : Category) : Json :=
  .obj [("id", .num (c.id : ℚ)), ("name", .str c.name),
        ("icon", .str c.icon), ("color", .str c.color)]

/-- Encoding of `api.PaymentMode`. -/
def encodePaymentMode (pm : PaymentMode) : Json :=
  .obj [("id", .num (pm.id : ℚ)), ("name", .str pm.name),
        ("icon", .str pm.icon), ("color", .str pm.color)]

/-- Encoding of `api.Currency`. -/
def encodeCurrency (c : Currency) : Json :=
  .obj [("id", .num (c.id : ℚ)), ("name", .str c.name),
        ("exchange_rate", .num c.exchangeRate)]

/-- Model of `Project.MarshalJSON`: a plain object with the seven fields;
categories and payment modes are emitted in the array form. -/
def encodeProject (p : Project) : Json :=
  .obj [("id", .str p.id),
        ("name", .str p.name),
        ("currencyname", .str p.currencyName),
        ("members", .arr (p.members.map encodeMember)),
        ("categories", .arr (p.categories.map encodeCategory)),
        ("paymentmodes", .arr (p.paymentModes.map encodePaymentMode)),
        ("currencies", .arr (p.currencies.map encodeCurrency))]

/-- Decode a `time.Time` cache timestamp (modelled as an integer; `null`
leaves the zero time, anything non-numeric is an error, mirroring the
strict RFC 3339 parsing of `time.Time.UnmarshalJSON`). -/
def jsonToTime : Json → Option Int
  | .num q => if q.den == 1 then some q.num else none
  | .null => some 0
  | _ => none

/-- Model of decoding `cache.CachedProject`: `{ "project": *Project,
"cached_at": time }`.  A `null` document yields the zero struct; a `null` or
missing `project` leaves a nil pointer; any nested mistyped value is an
unmarshalling error (the custom `Project.UnmarshalJSON` error included). -/
def decodeCachedProject : Json → Option (Option Project × Int)
  | .null => some (none, 0)
  | .obj fields => do
      let project ← (match getJField fields "project" with
        | none => some none
        | some .null => some none
        | some v => (decodeProject v).map some : Option (Option Project))
      let cachedAt ← (match getJField fields "cached_at" with
        | none => some 0
        | some v => jsonToTime v)
      pure (project, cachedAt)
  | _ => none

/-- Cache TTL: `1 * time.Hour`, in the seconds used for modelled timestamps. -/
def cacheTTL : Int := 3600

/-- State of a cache file as `cache.Load` can observe it: missing, unreadable
(also covering an unobtainable cache path), or readable with some JSON
content (unparsable bytes are modelled by content that fails to decode). -/
inductive FileState where
  | absent
  | unreadable
  | content (data : Json)

/-- Model of `cache.Load`: absent/unreadable/undecodable files and entries
older than the TTL all degrade to `(nil, false)`; a fresh entry returns its
project pointer with `true`.  `now` is the clock read by `time.Since`. -/
def Load (file : FileState) (now : Int) : Option Project × Bool :=
  match file with
  | .absent => (none, false)
  | .unreadable => (none, false)
  | .content data =>
    match decodeCachedProject data with
    | none => (none, false)
    | some (project, cachedAt) =>
      if cacheTTL < now - cachedAt then (none, false)
      else (project, true)

/-- Model of `cache.Save`: serialize `{project, cachedAt: now}` and write the
whole file.  (`projectID` only selects the file path, which the model keys
implicitly.) -/
def Save (projectID : String) (project : Project) (now : Int) : FileState :=
  let _ := projectID
  .content (.obj [("project", encodeProject project), ("cached_at", .num (now : ℚ))])

/-- Strict decoding of `api.UserInfo`. -/
def decodeUserInfo : Json → Option UserInfo
  | .obj fields => do
      let locale ← fieldD fields "locale" jsonToStr ""
      let language ← fieldD fields "language" jsonToStr ""
      pure ⟨locale, language⟩
  | .null => some ⟨"", ""⟩
  | _ => none

/-- Model of decoding `cache.CachedUserInfo`. -/
def decodeCachedUserInfo : Json → Option (Option UserInfo × Int)
  | .null => some (none, 0)
  | .obj fields => do
      let userInfo ← (match getJField fields "user_info" with
        | none => some none
        | some .null => some none
        | some v => (decodeUserInfo v).map some : Option (Option UserInfo))
      let cachedAt ← (match getJField fields "cached_at" with
        | none => some 0
        | some v => jsonToTime v)
      pure (userInfo, cachedAt)
  | _ => none

/-- Model of `cache.LoadUserInfo` (same contract as `Load` against the fixed
`_userinfo.json` slot). -/
def LoadUserInfo (file : FileState) (now : Int) : Option UserInfo × Bool :=
  match file with
  | .absent => (none, false)
  | .unreadable => (none, false)
  | .content data =>
    match decodeCachedUserInfo data with
    | none => (none, false)
    | some (userInfo, cachedAt) =>
      if cacheTTL < now - cachedAt then (none, false)
      else (userInfo, true)

/-- Model of `cache.SaveUserInfo`. -/
def SaveUserInfo (userInfo : UserInfo) (now : Int) : FileState :=
  .content (.obj [("user_info", .obj [("locale", .str userInfo.locale),
    ("language", .str userInfo.language)]), ("cached_at", .num (now : ℚ))])


/-! ## Round-trip of the cache serialization -/

theorem decodeMember_encodeMember (m : Member) : decodeMember (encodeMember m) = some m := by
  simp [decodeMember, encodeMember, getJField, fieldD, jsonToInt, jsonToStr, jsonToBool,
    Rat.den_intCast, Rat.num_intCast]

theorem decodeCategory_encodeCategory (c : Category) :
    decodeCategory (encodeCategory c) = some c := by
  simp [decodeCategory, encodeCategory, getJField, fieldD, jsonToInt, jsonToStr,
    Rat.den_intCast, Rat.num_intCast]

theorem decodePaymentMode_encodePaymentMode (pm : PaymentMode) :
    decodePaymentMode (encodePaymentMode pm) = some pm := by
  simp [decodePaymentMode, encodePaymentMode, getJField, fieldD, jsonToInt, jsonToStr,
    Rat.den_intCast, Rat.num_intCast]

theorem decodeCurrency_encodeCurrency (c : Currency) :
    decodeCurrency (encodeCurrency c) = some c := by
  simp [decodeCurrency, encodeCurrency, getJField, fieldD, jsonToInt, jsonToStr, jsonToRat,
    Rat.den_intCast, Rat.num_intCast]

theorem decodeList_encode {α : Type} (dec : Json → Option α) (enc : α → Json)
    (h : ∀ a, dec (enc a) = some a) (l : List α) :
    decodeList dec (l.map enc) = some l := by
  induction l with
  | nil => simp [decodeList]
  | cons a t ih => simp [decodeList, h, ih]

theorem decodeProject_encodeProject (p : Project) :
    decodeProject (encodeProject p) = some p := by
  simp [decodeProject, encodeProject, lenientStr, lenientArr, parseCategories,
    parsePaymentModes, getJField, jsonToStr,
    decodeList_encode decodeMember encodeMember decodeMember_encodeMember,
    decodeList_encode decodeCategory encodeCategory decodeCategory_encodeCategory,
    decodeList_encode decodePaymentMode encodePaymentMode decodePaymentMode_encodePaymentMode,
    decodeList_encode decodeCurrency encodeCurrency decodeCurrency_encodeCurrency]

theorem decodeCachedProject_Save (p : Project) (t : Int) :
    decodeCachedProject (.obj [("project", encodeProject p),
      ("cached_at", .num (t : ℚ))]) = some (some p, t) := by
  have h1 := decodeProject_encodeProject p
  simp only [encodeProject] at h1
  simp [decodeCachedProject, getJField, jsonToTime,
    Rat.den_intCast, Rat.num_intCast, encodeProject, h1]

/-! ## Filter engine (`cmd/list.go`) -/

/-- A bill predicate (`billFilter` in `cmd/list.go`). -/
def billFilter : Type := BillResponse → Bool

/-- Inner loop of `applyFilters`: every filter must accept the bill, with the
Go `break` modelled by the short-circuit recursion. -/
def includeBill : List (BillResponse → Bool) → BillResponse → Bool
  | [], _ => true
  | f :: rest, bill => if f bill then includeBill rest bill else false

/-- Model of `applyFilters`: an empty filter list returns the collection
unchanged, otherwise the bills accepted by every filter are kept in order. -/
def applyFilters (bills : List BillResponse) (filters : List (BillResponse → Bool)) :
    List BillResponse :=
  if filters.isEmpty then bills
  else bills.filter (includeBill filters)

/-- Parsed amount filter (`amountFilter` in `cmd/list.go`). -/
structure amountFilter where
  operator : String
  value : ℚ
deriving DecidableEq, Repr

/-- Operator/operand split of the shared grammar
`^(>=|<=|>|<|=)?(.+)$` (with Go regexp backtracking: a bare `>=` falls back
to operator `>` with operand `=`, a single operator character falls back to
the empty operator, and the empty string fails to match). -/
def splitOperand (s : String) : Option (String × String) :=
  match s.toList with
  | '>' :: '=' :: c :: rest => some (">=", String.mk (c :: rest))
  | '<' :: '=' :: c :: rest => some ("<=", String.mk (c :: rest))
  | '>' :: c :: rest => some (">", String.mk (c :: rest))
  | '<' :: c :: rest => some ("<", String.mk (c :: rest))
  | '=' :: c :: rest => some ("=", String.mk (c :: rest))
  | c :: rest => some ("", String.mk (c :: rest))
  | [] => none

/-- Model of `parseAmountFilter`: trim, split off the optional operator
(defaulting to `=`), and parse the trimmed remainder as a float. -/
def parseAmountFilter (s0 : String) : Except String amountFilter :=
  let s := strTrim s0
  match splitOperand s with
  | none => .error ("invalid amount filter format: " ++ s)
  | some (op, rest) =>
    let operator := if op == "" then "=" else op
    match parseFloatQ (strTrim rest) with
    | none => .error ("invalid amount value: " ++ rest)
    | some value => .ok ⟨operator, value⟩

/-- Model of `matchAmount` (the `float64` comparison carried out on the
exact rationals). -/
def matchAmount (amount : ℚ) (af : amountFilter) : Bool :=
  if af.operator == "=" then amount == af.value
  else if af.operator == ">" then decide (af.value < amount)
  else if af.operator == "<" then decide (amount < af.value)
  else if af.operator == ">=" then decide (af.value ≤ amount)
  else if af.operator == "<=" then decide (amount ≤ af.value)
  else false

/-- Parsed date filter (`dateFilter` in `cmd/list.go`). -/
structure dateFilter where
  operator : String
  date : String
deriving DecidableEq, Repr

/-- Leap-year test of the proleptic Gregorian calendar (Go `isLeap`).  Go's
`%` agrees with `Int.emod` on the zero test. -/
def isLeap (y : Int) : Bool :=
  y % 4 == 0 && (y % 100 != 0 || y % 400 == 0)

/-- Days in a month (Go `daysIn`). -/
def daysInMonth (y m : Int) : Int :=
  if m == 2 then (if isLeap y then 29 else 28)
  else if m == 4 || m == 6 || m == 9 || m == 11 then 30
  else 31

/-- Numeric value of a digit character. -/
def digitVal (c : Char) : Int :=
  (c.toNat : Int) - 48

/-- Model of a successful `time.Parse("2006-01-02", s)`: exactly four, two
and two digits (the layout's numeric fields are fixed-width), month in
1..12 and day within the month. -/
def isValidFullDate (s : String) : Bool :=
  match s.toList with
  | [y1, y2, y3, y4, '-', m1, m2, '-', d1, d2] =>
    [y1, y2, y3, y4, m1, m2, d1, d2].all Char.isDigit &&
    (let y := 1000 * digitVal y1 + 100 * digitVal y2 + 10 * digitVal y3 + digitVal y4
     let m := 10 * digitVal m1 + digitVal m2
     let d := 10 * digitVal d1 + digitVal d2
     1 ≤ m && m ≤ 12 && 1 ≤ d && d ≤ daysInMonth y m)
  | _ => false

/-- Model of a successful `time.Parse("01-02", s)`: the year defaults to 0
(which Go treats as a leap year for the day-range check). -/
def parseShortDate (s : String) : Option (Int × Int) :=
  match s.toList with
  | [m1, m2, '-', d1, d2] =>
    if [m1, m2, d1, d2].all Char.isDigit then
      let m := 10 * digitVal m1 + digitVal m2
      let d := 10 * digitVal d1 + digitVal d2
      if 1 ≤ m && m ≤ 12 && 1 ≤ d && d ≤ daysInMonth 0 m then some (m, d) else none
    else none
  | _ => none

/-- Two-digit zero padding (Go layout fields `01`/`02`). -/
def pad2 (n : Int) : String :=
  if n < 10 then "0" ++ toString n else toString n

/-- Four-digit zero padding (Go layout field `2006`, for years ≥ 0). -/
def pad4 (n : Int) : String :=
  if n < 10 then "000" ++ toString n
  else if n < 100 then "00" ++ toString n
  else if n < 1000 then "0" ++ toString n
  else toString n

/-- Model of `parseDateFilter`: the shared operator grammar, then the full
`YYYY-MM-DD` form taken verbatim, then the short `MM-DD` form completed with
the current year (`nowYear` models `time.Now().Year()`). -/
def parseDateFilter (s0 : String) (nowYear : Int) : Except String dateFilter :=
  let s := strTrim s0
  match splitOperand s with
  | none => .error ("invalid date filter format: " ++ s)
  | some (op, rest) =>
    let operator := if op == "" then "=" else op
    let dateStr := strTrim rest
    if isValidFullDate dateStr then .ok ⟨operator, dateStr⟩
    else
      match parseShortDate dateStr with
      | some md => .ok ⟨operator, toString nowYear ++ "-" ++ pad2 md.1 ++ "-" ++ pad2 md.2⟩
      | none => .error ("invalid date format: " ++ dateStr ++ " (expected YYYY-MM-DD or MM-DD)")

/-- Model of `matchDate` (Go's byte-wise string comparison on the zero-padded
ISO dates). -/
def matchDate (billDate : String) (df : dateFilter) : Bool :=
  if df.operator == "=" then billDate == df.date
  else if df.operator == ">" then strLt df.date billDate
  else if df.operator == "<" then strLt billDate df.date
  else if df.operator == ">=" then !(strLt billDate df.date)
  else if df.operator == "<=" then !(strLt df.date billDate)
  else false

/-! ## Calendar model (`time.Time` as used by `parseRecent` and the recent
filter in `cmd/list.go`).

A `time.Time` instant is modelled by its day number (days since 1970-01-01;
the code under verification only ever inspects the civil date).  `Date()` is
`civilFromDays`, and `time.Date(y, m, d, …)` is month normalization followed
by `daysFromCivil` — the standard proleptic-Gregorian conversions, which
agree with Go's calendar arithmetic.  `Int./` is Euclidean division, which
coincides with the floor division these algorithms need (all divisors are
positive). -/

/-- A civil calendar date as produced by Go `time.Time.Date()`. -/
structure CivilDate where
  year : Int
  month : Int
  day : Int
deriving DecidableEq, Repr

/-- Day number of a civil date (days since 1970-01-01); `day` may lie
outside the month and acts as an offset, exactly as in `time.Date`. -/
def daysFromCivil (y m d : Int) : Int :=
  let y2 := if m ≤ 2 then y - 1 else y
  let era := y2 / 400
  let yoe := y2 - era * 400
  let mp := if m ≤ 2 then m + 9 else m - 3
  let doy := (153 * mp + 2) / 5 + d - 1
  let doe := yoe * 365 + yoe / 4 - yoe / 100 + doy
  era * 146097 + doe - 719468

/-- Civil date of a day number (Go `time.Time.Date()`). -/
def civilFromDays (z0 : Int) : CivilDate :=
  let z := z0 + 719468
  let era := z / 146097
  let doe := z - era * 146097
  let yoe := (doe - doe / 1460 + doe / 36524 - doe / 146096) / 365
  let y := yoe + era * 400
  let doy := doe - (365 * yoe + yoe / 4 - yoe / 100)
  let mp := (5 * doy + 2) / 153
  let d := doy - (153 * mp + 2) / 5 + 1
  let m := if mp < 10 then mp + 3 else mp - 9
  ⟨if m ≤ 2 then y + 1 else y, m, d⟩

theorem yoe_bounds (doe : Int) (h0 : 0 ≤ doe) (h1 : doe ≤ 146096) :
    0 ≤ (doe - doe / 1460 + doe / 36524 - doe / 146096) / 365 ∧
    (doe - doe / 1460 + doe / 36524 - doe / 146096) / 365 ≤ 399 := by
  omega

set_option maxHeartbeats 2000000 in
theorem doy_bounds (doe : Int) (h0 : 0 ≤ doe) (h1 : doe ≤ 146096) :
    0 ≤ doe - (365 * ((doe - doe / 1460 + doe / 36524 - doe / 146096) / 365)
        + ((doe - doe / 1460 + doe / 36524 - doe / 146096) / 365) / 4
        - ((doe - doe / 1460 + doe / 36524 - doe / 146096) / 365) / 100) ∧
    doe - (365 * ((doe - doe / 1460 + doe / 36524 - doe / 146096) / 365)
        + ((doe - doe / 1460 + doe / 36524 - doe / 146096) / 365) / 4
        - ((doe - doe / 1460 + doe / 36524 - doe / 146096) / 365) / 100) ≤ 365 := by
  rcases eq_or_lt_of_le h1 with heq | hlt
  · subst heq; decide
  · have h1a : doe ≤ 146095 := by omega
    have hg : doe / 146096 = 0 := by omega
    have he : doe / 1460 = 25 * (doe / 36524) + (doe % 36524) / 1461 +
        (24 * (doe / 36524) + (doe % 36524) / 1461 + (doe % 36524) % 1461) / 1460 := by
      omega
    have hwj : 0 ≤ (doe % 36524) % 1461 -
          (24 * (doe / 36524) + (doe % 36524) / 1461 + (doe % 36524) % 1461) / 1460 ∧
        (doe % 36524) % 1461 -
          (24 * (doe / 36524) + (doe % 36524) / 1461 + (doe % 36524) % 1461) / 1460 ≤ 1459 := by
      omega
    have hyoe : (doe - doe / 1460 + doe / 36524 - doe / 146096) / 365 =
        100 * (doe / 36524) + 4 * ((doe % 36524) / 1461) +
        ((doe % 36524) % 1461 -
          (24 * (doe / 36524) + (doe % 36524) / 1461 + (doe % 36524) % 1461) / 1460) / 365 := by
      omega
    have hjb : 0 ≤ ((doe % 36524) % 1461 -
          (24 * (doe / 36524) + (doe % 36524) / 1461 + (doe % 36524) % 1461) / 1460) / 365 ∧
        ((doe % 36524) % 1461 -
          (24 * (doe / 36524) + (doe % 36524) / 1461 + (doe % 36524) % 1461) / 1460) / 365 ≤ 3 := by
      omega
    have h4 : ((doe - doe / 1460 + doe / 36524 - doe / 146096) / 365) / 4 =
        25 * (doe / 36524) + (doe % 36524) / 1461 := by
      omega
    have h100 : ((doe - doe / 1460 + doe / 36524 - doe / 146096) / 365) / 100 = doe / 36524 := by
      omega
    omega

theorem daysFromCivil_eval (era yoe mp doy : Int) (hy : 0 ≤ yoe) (hy2 : yoe ≤ 399)
    (hmp0 : 0 ≤ mp) (hmp1 : mp ≤ 11) :
    daysFromCivil
      (if (if mp < 10 then mp + 3 else mp - 9) ≤ 2 then yoe + era * 400 + 1 else yoe + era * 400)
      (if mp < 10 then mp + 3 else mp - 9)
      (doy - (153 * mp + 2) / 5 + 1)
    = era * 146097 + (yoe * 365 + yoe / 4 - yoe / 100) + doy - 719468 := by
  have hq : (yoe + era * 400) / 400 = era := by omega
  unfold daysFromCivil
  simp only []
  split_ifs with h1 h2 h3
  · omega
  · rw [hq, show yoe + era * 400 - era * 400 = yoe by ring,
      show mp + 3 - 3 = mp by ring]
    omega
  · rw [show yoe + era * 400 + 1 - 1 = yoe + era * 400 by ring, hq,
      show yoe + era * 400 - era * 400 = yoe by ring,
      show mp - 9 + 9 = mp by ring]
    omega
  · omega

/-- The civil conversions are mutually inverse, and the produced month is a
real month.  This is the key fact behind Go's `AddDate` day arithmetic. -/
theorem civil_roundtrip (z : Int) :
    daysFromCivil (civilFromDays z).year (civilFromDays z).month (civilFromDays z).day = z ∧
    1 ≤ (civilFromDays z).month ∧ (civilFromDays z).month ≤ 12 := by
  have hyb := yoe_bounds (z + 719468 - (z + 719468) / 146097 * 146097) (by omega) (by omega)
  have hdb := doy_bounds (z + 719468 - (z + 719468) / 146097 * 146097) (by omega) (by omega)
  simp only [civilFromDays]
  refine ⟨?_, ?_, ?_⟩
  · rw [daysFromCivil_eval]
    all_goals omega
  · split_ifs <;> omega
  · split_ifs <;> omega

/-- Model of Go `t.AddDate(years, months, days)`: decompose into the civil
date, add the components, and renormalize via `time.Date` (month borrowing
with floor division, the day acting as an offset). -/
def addDate (t : Int) (years months days : Int) : Int :=
  daysFromCivil
    ((civilFromDays t).year + years + ((civilFromDays t).month + months - 1) / 12)
    (((civilFromDays t).month + months - 1) % 12 + 1)
    ((civilFromDays t).day + days)

theorem daysFromCivil_add_day (y m d n : Int) :
    daysFromCivil y m (d + n) = daysFromCivil y m d + n := by
  unfold daysFromCivil
  simp only []
  split_ifs <;> omega

/-- Adding only days moves the instant by exactly that many days. -/
theorem addDate_days (t n : Int) : addDate t 0 0 n = t + n := by
  have h := civil_roundtrip t
  simp only [addDate]
  rw [show (civilFromDays t).month + 0 - 1 = (civilFromDays t).month - 1 by ring]
  rw [show ((civilFromDays t).month - 1) / 12 = 0 by omega,
    show ((civilFromDays t).month - 1) % 12 + 1 = (civilFromDays t).month by omega,
    show (civilFromDays t).year + 0 + 0 = (civilFromDays t).year by ring,
    daysFromCivil_add_day, h.1]

/-- Model of `t.Format("2006-01-02")`. -/
def formatDate (t : Int) : String :=
  pad4 (civilFromDays t).year ++ "-" ++ pad2 (civilFromDays t).month ++ "-" ++
    pad2 (civilFromDays t).day

/-- Model of `parseRecent`: trim, check the byte length, split the trailing
unit byte from the leading integer, and subtract the span from `now` with
`AddDate`.  (The final byte is modelled as the final character; for the
ASCII units accepted here the two agree, and any non-ASCII ending is an
invalid unit either way.) -/
def parseRecent (s0 : String) (now : Int) : Except String Int :=
  let s := strTrim s0
  if s.utf8ByteSize < 2 then
    .error ("invalid recent format: " ++ s ++ " (expected e.g. 7d, 2w, 1m)")
  else
    match s.toList.getLast? with
    | none => .error ("invalid recent format: " ++ s ++ " (expected e.g. 7d, 2w, 1m)")
    | some unit =>
      let valueStr := String.mk s.toList.dropLast
      match atoiInt valueStr with
      | none => .error ("invalid recent value: " ++ valueStr)
      | some value =>
        if unit == 'd' then .ok (addDate now 0 0 (-value))
        else if unit == 'w' then .ok (addDate now 0 0 (-(value * 7)))
        else if unit == 'm' then .ok (addDate now 0 (-value) 0)
        else .error ("invalid recent unit: " ++ String.mk [unit] ++ " (expected d, w, or m)")

/-- The `--recent` branch of `buildFilters`: parse the span, format the
cutoff date, and keep bills with `bill.Date >= cutoffStr`. -/
def buildRecentFilter (listRecent : String) (now : Int) :
    Except String (BillResponse → Bool) :=
  match parseRecent listRecent now with
  | .error e => .error ("parsing recent filter: " ++ e)
  | .ok cutoff =>
    let cutoffStr := formatDate cutoff
    .ok (fun bill => !(strLt bill.date cutoffStr))

example : daysFromCivil 1970 1 1 = 0 := by decide
example : civilFromDays 0 = ⟨1970, 1, 1⟩ := by decide
example : civilFromDays 20500 = ⟨2026, 2, 16⟩ := by decide
example : addDate (daysFromCivil 2026 3 31) 0 (-1) 0 = daysFromCivil 2026 3 3 := by decide
example : formatDate (daysFromCivil 2026 2 16) = "2026-02-16" := by decide

/-! ## Sorting and limiting in `resolveBillNames` (`cmd/list.go`) -/

/-- The `less` comparator passed to `sort.Slice` in `resolveBillNames`:
newest date first, ties broken by larger creation timestamp. -/
def billSortLess (a b : BillResponse) : Bool :=
  if a.date != b.date then strLt b.date a.date
  else decide (b.timestamp < a.timestamp)

/-- The non-strict order guaranteed of `sort.Slice`'s output:
`billSortLe a b` iff `a` need not come after `b`. -/
def billSortLe (a b : BillResponse) : Bool :=
  !(billSortLess b a)

/-- Model of the `sort.Slice(bills, less)` call: an unstable sort whose
output is some reordering sorted with respect to `billSortLe`; `mergeSort`
is one such sort. -/
def sortBills (bills : List BillResponse) : List BillResponse :=
  bills.mergeSort billSortLe

theorem lexLt_irrefl (as : List Char) : lexLt as as = false := by
  induction as with
  | nil => rfl
  | cons a t ih => simp [lexLt, ih]

theorem lexLt_asymm (as bs : List Char) (h : lexLt as bs = true) : lexLt bs as = false := by
  induction as generalizing bs with
  | nil => cases bs with
    | nil => simp [lexLt] at h
    | cons b t => simp [lexLt]
  | cons a t ih =>
    cases bs with
    | nil => simp [lexLt] at h
    | cons b u =>
      simp only [lexLt] at h ⊢
      rcases lt_trichotomy a b with hab | hab | hab
      · simp [hab, not_lt_of_lt hab]
      · subst hab
        simp only [lt_irrefl, if_false] at h ⊢
        exact ih u h
      · simp [hab, not_lt_of_lt hab] at h
  
theorem lexLt_trans (as bs cs : List Char) (h1 : lexLt as bs = true)
    (h2 : lexLt bs cs = true) : lexLt as cs = true := by
  induction as generalizing bs cs with
  | nil => cases cs with
    | nil =>
      cases bs with
      | nil => exact h1
      | cons b u => simp [lexLt] at h2
    | cons c v => simp [lexLt]
  | cons a t ih =>
    cases bs with
    | nil => simp [lexLt] at h1
    | cons b u =>
      cases cs with
      | nil => simp [lexLt] at h2
      | cons c v =>
        simp only [lexLt] at h1 h2 ⊢
        rcases lt_trichotomy a b with hab | hab | hab
        · rcases lt_trichotomy b c with hbc | hbc | hbc
          · simp [lt_trans hab hbc]
          · subst hbc; simp [hab]
          · simp [not_lt_of_lt hbc, hbc] at h2
        · subst hab
          rcases lt_trichotomy a c with hac | hac | hac
          · simp [hac]
          · subst hac
            simp only [lt_irrefl, if_false] at h1 h2 ⊢
            exact ih u v h1 h2
          · simp [not_lt_of_lt hac, hac] at h2
        · simp [not_lt_of_lt hab, hab] at h1

theorem lexLt_connex (as bs : List Char) (h1 : lexLt as bs = false)
    (h2 : lexLt bs as = false) : as = bs := by
  induction as generalizing bs with
  | nil => cases bs with
    | nil => rfl
    | cons b u => simp [lexLt] at h1
  | cons a t ih =>
    cases bs with
    | nil => simp [lexLt] at h2
    | cons b u =>
      simp only [lexLt] at h1 h2
      rcases lt_trichotomy a b with hab | hab | hab
      · simp [hab] at h1
      · subst hab
        simp only [lt_irrefl, if_false] at h1 h2
        rw [ih u h1 h2]
      · simp [hab] at h2

theorem strLt_irrefl (a : String) : strLt a a = false :=
  lexLt_irrefl a.toList

theorem strLt_asymm (a b : String) (h : strLt a b = true) : strLt b a = false :=
  lexLt_asymm a.toList b.toList h

theorem strLt_trans (a b c : String) (h1 : strLt a b = true) (h2 : strLt b c = true) :
    strLt a c = true :=
  lexLt_trans a.toList b.toList c.toList h1 h2

theorem strLt_connex (a b : String) (h1 : strLt a b = false) (h2 : strLt b a = false) :
    a = b := by
  cases a with
  | mk da => cases b with
    | mk db => exact congrArg String.mk (lexLt_connex da db h1 h2)

/-- `billSortLe` in claim terms: earlier bills have a strictly later date, or
an equal date and a timestamp at least as large. -/
theorem billSortLe_iff (a b : BillResponse) :
    billSortLe a b = true ↔
      (strLt b.date a.date = true ∨ (a.date = b.date ∧ b.timestamp ≤ a.timestamp)) := by
  unfold billSortLe billSortLess
  by_cases hd : b.date = a.date
  · rw [hd]
    simp [strLt_irrefl, Int.not_lt]
  · have hd2 : (b.date != a.date) = true := by simpa using hd
    rw [hd2]
    simp only [if_true]
    cases h3 : strLt a.date b.date with
    | true =>
      have h4 := strLt_asymm _ _ h3
      rw [h4]
      constructor
      · intro hcontra
        exact absurd hcontra (by simp)
      · rintro (hx | ⟨hx, _⟩)
        · exact absurd hx (by simp)
        · exact absurd hx.symm hd
    | false =>
      cases h4 : strLt b.date a.date with
      | true => simp [h4]
      | false => exact absurd (strLt_connex _ _ h3 h4).symm hd

theorem billSortLe_trans (a b c : BillResponse) (h1 : billSortLe a b = true)
    (h2 : billSortLe b c = true) : billSortLe a c = true := by
  rw [billSortLe_iff] at h1 h2 ⊢
  rcases h1 with h1 | ⟨h1, h1t⟩
  · rcases h2 with h2 | ⟨h2, h2t⟩
    · exact Or.inl (strLt_trans _ _ _ h2 h1)
    · exact Or.inl (h2 ▸ h1)
  · rcases h2 with h2 | ⟨h2, h2t⟩
    · exact Or.inl (h1 ▸ h2)
    · exact Or.inr ⟨h1.trans h2, le_trans h2t h1t⟩

theorem billSortLe_total (a b : BillResponse) :
    (billSortLe a b || billSortLe b a) = true := by
  rw [Bool.or_eq_true, billSortLe_iff, billSortLe_iff]
  by_cases hd : a.date = b.date
  · rcases le_total a.timestamp b.timestamp with h | h
    · exact Or.inr (Or.inr ⟨hd.symm, h⟩)
    · exact Or.inl (Or.inr ⟨hd, h⟩)
  · cases h3 : strLt b.date a.date with
    | true => exact Or.inl (Or.inl rfl)
    | false =>
      cases h4 : strLt a.date b.date with
      | true => exact Or.inr (Or.inl rfl)
      | false => exact absurd (strLt_connex _ _ h4 h3) hd

/-- Resolved bill row (`resolvedBill` in `cmd/list.go`). -/
structure resolvedBill where
  id : Int
  date : String
  name : String
  amount : ℚ
  paidBy : String
  paidFor : List String
  category : String
  paymentMethod : String
deriving DecidableEq, Repr

/-- Lookup in the Go name maps built by ranging over a slice: a later entry
with the same ID overwrites an earlier one, and a missing key yields `""`. -/
def mapName (entries : List (Int × String)) (key : Int) : String :=
  entries.foldl (fun acc e => if e.1 == key then e.2 else acc) ""

/-- Per-bill body of `resolveBillNames`: resolve payer/ower/category/method
names with `#<id>` fallbacks, and normalize the bill text (trim, then map
newline, carriage return and tab to spaces). -/
def resolveOneBill (project : Project) (bill : BillResponse) : resolvedBill :=
  let memberNames := project.members.map (fun m => (m.id, m.name))
  let payerName0 := mapName memberNames bill.payerID
  let payerName := if payerName0 == "" then "#" ++ toString bill.payerID else payerName0
  let owerNames := bill.owers.map (fun o =>
    let n := mapName memberNames o.id
    if n == "" then "#" ++ toString o.id else n)
  let catName0 := mapName (project.categories.map (fun c => (c.id, c.name))) bill.categoryID
  let catName := if catName0 == "" && bill.categoryID != 0 then
    "#" ++ toString bill.categoryID else catName0
  let methodName0 :=
    mapName (project.paymentModes.map (fun pm => (pm.id, pm.name))) bill.paymentModeID
  let methodName := if methodName0 == "" && bill.paymentModeID != 0 then
    "#" ++ toString bill.paymentModeID else methodName0
  let name := String.mk ((trimChars bill.what.toList).map
    (fun r => if r == '\n' || r == '\r' || r == '\t' then ' ' else r))
  { id := bill.id, date := bill.date, name := name, amount := bill.amount,
    paidBy := payerName, paidFor := owerNames, category := catName,
    paymentMethod := methodName }

/-- Model of `resolveBillNames`: sort newest-first (ties by descending
timestamp), truncate to `listLimit` when the limit is positive and smaller
than the collection, then resolve names row by row. -/
def resolveBillNames (listLimit : Int) (project : Project) (bills : List BillResponse) :
    List resolvedBill :=
  let sorted := sortBills bills
  let limited :=
    if 0 < listLimit ∧ listLimit < (sorted.length : Int) then
      sorted.take listLimit.toNat
    else sorted
  limited.map (resolveOneBill project)

/-! ## Claims about the resolver (C1, C5, C6) -/

instance {ε α : Type} [DecidableEq ε] [DecidableEq α] : DecidableEq (Except ε α) :=
  fun x y =>
    match x, y with
    | .ok a, .ok b => decidable_of_iff (a = b) (by simp)
    | .error e, .error f => decidable_of_iff (e = f) (by simp)
    | .ok _, .error _ => isFalse (fun h => Except.noConfusion h)
    | .error _, .ok _ => isFalse (fun h => Except.noConfusion h)

theorem beq_string_false_of_ne {a b : String} (h : a ≠ b) : (a == b) = false := by
  simpa using h

/-- C1 counterexample: member resolution has no literal-ID strategy.  In a
project whose only member has ID `5`, resolving the token `"5"` fails
instead of returning `5` as the claim requires. -/
theorem C1_counterexample :
    ResolveMember ⟨"p", "P", "", [⟨5, "Alice", "alice", true⟩], [], [], []⟩ "5" =
      .error "member not found: 5" ∧
    ResolveMember ⟨"p", "P", "", [⟨5, "Alice", "alice", true⟩], [], [], []⟩ "5" ≠
      .ok 5 := by
  constructor
  · rfl
  · intro h
    simp [ResolveMember, strLower, List.find?] at h

/-- C1 (amended): for categories, payment modes and currencies a token that
parses as a decimal integer naming an existing ID resolves to that ID
immediately, before any name matching; member resolution has no ID
strategy — it succeeds only through a case-insensitive `name`/`userid`
match. -/
theorem C1_literal_id_wins :
    ∀ (project : Project) (token : String) (i : Int),
      atoiInt token = some i →
      ((∃ c ∈ project.categories, c.id = i) → ResolveCategory project token = .ok i) ∧
      ((∃ pm ∈ project.paymentModes, pm.id = i) → ResolvePaymentMode project token = .ok i) ∧
      ((∃ c ∈ project.currencies, c.id = i) →
        ∃ c, ResolveCurrency project token = .ok c ∧ c.id = i) ∧
      (∀ j, ResolveMember project token = .ok j →
        ∃ m ∈ project.members, m.id = j ∧
          (strLower m.name = strLower token ∨ strLower m.userID = strLower token)) := by
  intro project token i hatoi
  have hne : (token == "") = false := by
    cases he : token == "" with
    | false => rfl
    | true =>
      have : token = "" := by simpa using he
      subst this
      simp [atoiInt] at hatoi
  refine ⟨?_, ?_, ?_, ?_⟩
  · rintro ⟨c, hc, hid⟩
    have hany : project.categories.any (fun c => c.id == i) = true :=
      List.any_eq_true.mpr ⟨c, hc, by simp [hid]⟩
    simp [ResolveCategory, hne, hatoi, hany]
  · rintro ⟨pm, hpm, hid⟩
    have hany : project.paymentModes.any (fun pm => pm.id == i) = true :=
      List.any_eq_true.mpr ⟨pm, hpm, by simp [hid]⟩
    simp [ResolvePaymentMode, hne, hatoi, hany]
  · rintro ⟨c, hc, hid⟩
    have hsome : (project.currencies.find? (fun c => c.id == i)).isSome := by
      rw [List.find?_isSome]
      exact ⟨c, hc, by simp [hid]⟩
    cases hfind : project.currencies.find? (fun c => c.id == i) with
    | none => rw [hfind] at hsome; simp at hsome
    | some c0 =>
      refine ⟨c0, ?_, ?_⟩
      · simp [ResolveCurrency, hatoi, hfind]
      · have := List.find?_some hfind
        simpa using this
  · intro j hj
    unfold ResolveMember at hj
    simp only [] at hj
    cases hfind : project.members.find? (fun m =>
        strLower m.name == strLower token || strLower m.userID == strLower token) with
    | none => rw [hfind] at hj; simp at hj
    | some m =>
      rw [hfind] at hj
      have hm : m ∈ project.members := List.mem_of_find?_eq_some hfind
      have hp := List.find?_some hfind
      simp only [Except.ok.injEq] at hj
      refine ⟨m, hm, hj ▸ rfl, ?_⟩
      rcases Bool.or_eq_true _ _ |>.mp hp with h | h
      · exact Or.inl (by simpa using h)
      · exact Or.inr (by simpa using h)

/-- Closed instance for C1 (amended): in a collection holding both a
category with ID 5 and a category named "5" with ID 2, the literal-ID match
wins. -/
theorem C1_literal_id_wins_witness :
    atoiInt "5" = some 5 ∧
    ResolveCategory ⟨"p", "P", "", [], [⟨2, "5", "", ""⟩, ⟨5, "Drinks", "", ""⟩], [], []⟩
      "5" = .ok 5 := by
  refine ⟨by decide, ?_⟩
  exact (C1_literal_id_wins
    ⟨"p", "P", "", [], [⟨2, "5", "", ""⟩, ⟨5, "Drinks", "", ""⟩], [], []⟩ "5" 5
    (by decide)).1 ⟨⟨5, "Drinks", "", ""⟩, by decide, rfl⟩

/-- C5: the case-insensitive substring fallback exists only for categories
and payment modes, fires only when no exact name match exists, returns the
first collection-order hit without any ambiguity error, and the same token
fails for members and currencies. -/
theorem C5_substring_fallback :
    (∀ (project : Project) (token : String) (c : Category),
      (token == "") = false →
      (∀ i, atoiInt token = some i → ∀ ca ∈ project.categories, ca.id ≠ i) →
      (∀ ca ∈ project.categories, strLower ca.name ≠ strLower token) →
      project.categories.find?
        (fun ca => strContains (strLower ca.name) (strLower token)) = some c →
      ResolveCategory project token = .ok c.id) ∧
    (∀ (project : Project) (token : String) (pm : PaymentMode),
      (token == "") = false →
      (∀ i, atoiInt token = some i → ∀ p ∈ project.paymentModes, p.id ≠ i) →
      (∀ p ∈ project.paymentModes, strLower p.name ≠ strLower token) →
      project.paymentModes.find?
        (fun p => strContains (strLower p.name) (strLower token)) = some pm →
      ResolvePaymentMode project token = .ok pm.id) ∧
    ResolveCategory ⟨"p", "P", "", [], [⟨1, "Food", "", ""⟩], [], []⟩ "FOO" = .ok 1 ∧
    ResolveCategory
      ⟨"p", "P", "", [], [⟨1, "Seafood", "", ""⟩, ⟨2, "Food court", "", ""⟩], [], []⟩
      "FOO" = .ok 1 ∧
    ResolveMember ⟨"p", "P", "", [⟨1, "Food", "food", true⟩], [], [], []⟩ "FOO" =
      .error "member not found: FOO" ∧
    ResolveCurrency ⟨"p", "P", "", [], [], [], [⟨1, "Food", 1⟩]⟩ "FOO" =
      .error "currency not found: FOO" := by
  refine ⟨?_, ?_, by decide, by decide, by decide, by decide⟩
  · intro project token c hne hid hexact hfind
    have hidm : (match atoiInt token with
        | some id => if project.categories.any (fun c => c.id == id) then some id else none
        | none => none) = (none : Option Int) := by
      cases ha : atoiInt token with
      | none => rfl
      | some i =>
        have : project.categories.any (fun c => c.id == i) = false := by
          rw [List.any_eq_false]
          intro ca hca
          simpa using hid i ha ca hca
        simp [this]
    have hex : project.categories.find? (fun ca => strLower ca.name == strLower token) =
        none := by
      rw [List.find?_eq_none]
      intro ca hca
      simpa using hexact ca hca
    simp only [ResolveCategory, hne, Bool.false_eq_true, if_false, hidm, hex, hfind]
  · intro project token pm hne hid hexact hfind
    have hidm : (match atoiInt token with
        | some id => if project.paymentModes.any (fun pm => pm.id == id) then some id else none
        | none => none) = (none : Option Int) := by
      cases ha : atoiInt token with
      | none => rfl
      | some i =>
        have : project.paymentModes.any (fun pm => pm.id == i) = false := by
          rw [List.any_eq_false]
          intro p hp
          simpa using hid i ha p hp
        simp [this]
    have hex : project.paymentModes.find? (fun p => strLower p.name == strLower token) =
        none := by
      rw [List.find?_eq_none]
      intro p hp
      simpa using hexact p hp
    simp only [ResolvePaymentMode, hne, Bool.false_eq_true, if_false, hidm, hex, hfind]

/-- Closed instance for C5: the general substring conjunct applied to the
`Food`/`FOO` example. -/
theorem C5_substring_fallback_witness :
    ResolveCategory ⟨"p", "P", "", [], [⟨1, "Food", "", ""⟩], [], []⟩ "FOO" = .ok 1 :=
  C5_substring_fallback.1 ⟨"p", "P", "", [], [⟨1, "Food", "", ""⟩], [], []⟩ "FOO"
    ⟨1, "Food", "", ""⟩ (by decide)
    (fun i h => by
      rw [show atoiInt "FOO" = none from by decide] at h
      exact Option.noConfusion h)
    (by decide) (by decide)

/-- C6: when neither a literal ID nor a name matches, a known currency code
is translated to its symbol and the first currency whose name contains the
symbol is returned; if none does, the distinguishable not-found error is
returned. -/
theorem C6_currency_code_chain :
    (∀ (project : Project) (token symbol : String) (c : Currency),
      (∀ i, atoiInt token = some i → ∀ cu ∈ project.currencies, cu.id ≠ i) →
      (∀ cu ∈ project.currencies, strLower cu.name ≠ strLower token) →
      currencyCodeToSymbol.lookup (strLower token) = some symbol →
      project.currencies.find? (fun cu => strContains cu.name symbol) = some c →
      ResolveCurrency project token = .ok c) ∧
    (∀ (project : Project) (token symbol : String),
      (∀ i, atoiInt token = some i → ∀ cu ∈ project.currencies, cu.id ≠ i) →
      (∀ cu ∈ project.currencies, strLower cu.name ≠ strLower token) →
      currencyCodeToSymbol.lookup (strLower token) = some symbol →
      project.currencies.find? (fun cu => strContains cu.name symbol) = none →
      ResolveCurrency project token = .error ("currency not found: " ++ token)) ∧
    ResolveCurrency ⟨"p", "P", "", [], [], [], [⟨4, "US Dollar ($)", 1⟩]⟩ "usd" =
      .ok ⟨4, "US Dollar ($)", 1⟩ := by
  have hidm : ∀ (project : Project) (token : String),
      (∀ i, atoiInt token = some i → ∀ cu ∈ project.currencies, cu.id ≠ i) →
      ((match atoiInt token with
        | some id => project.currencies.find? (fun c => c.id == id)
        | none => none) : Option Currency) = none := by
    intro project token hid
    cases ha : atoiInt token with
    | none => rfl
    | some i =>
      simp only []
      rw [List.find?_eq_none]
      intro cu hcu
      simpa using hid i ha cu hcu
  have hexm : ∀ (project : Project) (token : String),
      (∀ cu ∈ project.currencies, strLower cu.name ≠ strLower token) →
      project.currencies.find? (fun cu => strLower cu.name == strLower token) = none := by
    intro project token hexact
    rw [List.find?_eq_none]
    intro cu hcu
    simpa using hexact cu hcu
  refine ⟨?_, ?_, by decide⟩
  · intro project token symbol c hid hexact hlookup hfind
    simp [ResolveCurrency, hidm project token hid, hexm project token hexact, hlookup, hfind]
  · intro project token symbol hid hexact hlookup hfind
    simp [ResolveCurrency, hidm project token hid, hexm project token hexact, hlookup, hfind]

/-- Closed instance for C6: `resolve("usd")` on `[{id:4, name:"US Dollar ($)"}]`
returns the currency with ID 4 through the code → symbol → substring chain. -/
theorem C6_currency_code_chain_witness :
    ResolveCurrency ⟨"p", "P", "", [], [], [], [⟨4, "US Dollar ($)", 1⟩]⟩ "usd" =
      .ok ⟨4, "US Dollar ($)", 1⟩ :=
  C6_currency_code_chain.1 ⟨"p", "P", "", [], [], [], [⟨4, "US Dollar ($)", 1⟩]⟩
    "usd" "$" ⟨4, "US Dollar ($)", 1⟩
    (fun i h => by
      rw [show atoiInt "usd" = none from by decide] at h
      exact Option.noConfusion h)
    (by decide) (by decide) (by decide)

/-! ## Claims about the reverse symbol lookup (C2) -/

theorem bulk_foldl_none (sym : String) :
    ∀ (order : List (String × String)) (m : String → Option String),
      (∀ e ∈ order, e.2 ≠ sym) → m sym = none →
      (order.foldl (fun m cs => mapInsert m cs.2 (strUpper cs.1)) m) sym = none := by
  intro order
  induction order with
  | nil => intro m _ hm; simpa using hm
  | cons e rest ih =>
    intro m hall hm
    rw [List.foldl_cons]
    refine ih _ (fun e2 he2 => hall e2 (List.mem_cons_of_mem _ he2)) ?_
    have hne : (sym == e.2) = false :=
      beq_eq_false_iff_ne.mpr (fun h => hall e (List.mem_cons_self _ _) h.symm)
    simp [mapInsert, hne, hm]

theorem buildSymbolToISO_eq (order : List (String × String)) :
    buildSymbolToISO order =
      mapInsert (mapInsert (mapInsert (mapInsert
        (order.foldl (fun m cs => mapInsert m cs.2 (strUpper cs.1)) (fun _ => none))
        "$" "USD") "¥" "CNY") "£" "GBP") "€" "EUR" := rfl

theorem buildSymbolToISO_eval (order : List (String × String)) (sym : String) :
    buildSymbolToISO order sym =
      (if sym == "€" then some "EUR"
       else if sym == "£" then some "GBP"
       else if sym == "¥" then some "CNY"
       else if sym == "$" then some "USD"
       else (order.foldl (fun m cs => mapInsert m cs.2 (strUpper cs.1)) (fun _ => none)) sym) := by
  rw [buildSymbolToISO_eq]
  simp only [mapInsert]

/-- C2 counterexample: the reverse lookup is not run-independent.  The
bulk pass iterates a Go map, so any permutation of the table is a possible
construction order; the source order and its reversal — both permutations —
give different answers for the shared symbol `"kr"` (none of whose codes is
in the preferred list). -/
theorem C2_counterexample :
    currencyCodeToSymbol.reverse.Perm currencyCodeToSymbol ∧
    SymbolToISO currencyCodeToSymbol "kr" = "SEK" ∧
    SymbolToISO currencyCodeToSymbol.reverse "kr" = "DKK" ∧
    ("SEK" : String) ≠ "DKK" :=
  ⟨List.reverse_perm _, by decide, by decide, by decide⟩

/-- C2 (amended): within one process the lookup is a pure function of the
construction order (the `sync.Once` builds the index exactly once), and for
every possible construction order the preferred codes win their ties — `"$"`
resolves to `"USD"`, `"¥"` to `"CNY"`, `"£"` to `"GBP"`, `"€"` to `"EUR"` —
while an unknown symbol yields `""`.  For a shared symbol outside the
preferred set (such as `"kr"`) the answer may differ between runs. -/
theorem C2_preferred_and_unknown :
    ∀ (order : List (String × String)), order.Perm currencyCodeToSymbol →
      SymbolToISO order "$" = "USD" ∧
      SymbolToISO order "¥" = "CNY" ∧
      SymbolToISO order "£" = "GBP" ∧
      SymbolToISO order "€" = "EUR" ∧
      (∀ symbol, (∀ e ∈ currencyCodeToSymbol, e.2 ≠ symbol) →
        SymbolToISO order symbol = "") := by
  intro order hperm
  refine ⟨?_, ?_, ?_, ?_, ?_⟩
  · simp [SymbolToISO, buildSymbolToISO_eval]
  · simp [SymbolToISO, buildSymbolToISO_eval]
  · simp [SymbolToISO, buildSymbolToISO_eval]
  · simp [SymbolToISO, buildSymbolToISO_eval]
  · intro symbol hsym
    have h1 : (symbol == "€") = false :=
      beq_eq_false_iff_ne.mpr (fun h => hsym ("eur", "€") (by decide) h.symm)
    have h2 : (symbol == "£") = false :=
      beq_eq_false_iff_ne.mpr (fun h => hsym ("gbp", "£") (by decide) h.symm)
    have h3 : (symbol == "¥") = false :=
      beq_eq_false_iff_ne.mpr (fun h => hsym ("cny", "¥") (by decide) h.symm)
    have h4 : (symbol == "$") = false :=
      beq_eq_false_iff_ne.mpr (fun h => hsym ("usd", "$") (by decide) h.symm)
    have hbulk := bulk_foldl_none symbol order (fun _ => none)
      (fun e he => hsym e (hperm.mem_iff.mp he)) rfl
    simp [SymbolToISO, buildSymbolToISO_eval, h1, h2, h3, h4, hbulk]

/-- Closed instance for C2 (amended), at the source construction order. -/
theorem C2_preferred_and_unknown_witness :
    SymbolToISO currencyCodeToSymbol "$" = "USD" ∧
    SymbolToISO currencyCodeToSymbol "zzz" = "" := by
  have h := C2_preferred_and_unknown currencyCodeToSymbol (List.Perm.refl _)
  exact ⟨h.1, h.2.2.2.2 "zzz" (by decide)⟩

/-! ## Claims about the cache store (C3, C4) -/

/-- C3: a `Load` within the TTL of a `Save` returns the saved project,
field for field, through the custom JSON round trip (the array-form
marshalling of categories/payment modes is read back by the two-attempt
unmarshaller). -/
theorem C3_save_load_roundtrip (projectID : String) (project : Project)
    (tSave tLoad : Int) (h : tLoad - tSave ≤ cacheTTL) :
    Load (Save projectID project tSave) tLoad = (some project, true) := by
  simp only [Save, Load]
  rw [decodeCachedProject_Save]
  simp only [if_neg (show ¬(cacheTTL < tLoad - tSave) from by omega)]

/-- Closed instance for C3, with one member, category, payment mode and
currency in the project. -/
theorem C3_save_load_roundtrip_witness :
    (150 : Int) - 100 ≤ cacheTTL ∧
    Load (Save "alpha"
        ⟨"alpha", "Trip", "EUR", [⟨1, "Alice", "alice", true⟩],
          [⟨2, "Food", "i", "#fff"⟩], [⟨3, "Cash", "j", "#000"⟩],
          [⟨4, "US Dollar ($)", mkRat 3 2⟩]⟩ 100) 150 =
      (some ⟨"alpha", "Trip", "EUR", [⟨1, "Alice", "alice", true⟩],
        [⟨2, "Food", "i", "#fff"⟩], [⟨3, "Cash", "j", "#000"⟩],
        [⟨4, "US Dollar ($)", mkRat 3 2⟩]⟩, true) :=
  ⟨by decide, C3_save_load_roundtrip "alpha"
    ⟨"alpha", "Trip", "EUR", [⟨1, "Alice", "alice", true⟩],
      [⟨2, "Food", "i", "#fff"⟩], [⟨3, "Cash", "j", "#000"⟩],
      [⟨4, "US Dollar ($)", mkRat 3 2⟩]⟩ 100 150 (by decide)⟩

/-- C4: `Load` and `LoadUserInfo` never surface an error — an absent file,
an unreadable file, undecodable contents, and a stale `cachedAt` (older
than the TTL) all yield `(nil, false)`, the last one regardless of how
valid the payload is. -/
theorem C4_load_never_errors :
    ∀ (now : Int),
      Load .absent now = (none, false) ∧
      Load .unreadable now = (none, false) ∧
      (∀ data, decodeCachedProject data = none → Load (.content data) now = (none, false)) ∧
      (∀ data project cachedAt,
        decodeCachedProject data = some (project, cachedAt) →
        cacheTTL < now - cachedAt → Load (.content data) now = (none, false)) ∧
      LoadUserInfo .absent now = (none, false) ∧
      LoadUserInfo .unreadable now = (none, false) ∧
      (∀ data, decodeCachedUserInfo data = none →
        LoadUserInfo (.content data) now = (none, false)) ∧
      (∀ data userInfo cachedAt,
        decodeCachedUserInfo data = some (userInfo, cachedAt) →
        cacheTTL < now - cachedAt → LoadUserInfo (.content data) now = (none, false)) := by
  intro now
  refine ⟨rfl, rfl, ?_, ?_, rfl, rfl, ?_, ?_⟩
  · intro data hdec
    simp [Load, hdec]
  · intro data project cachedAt hdec httl
    simp [Load, hdec, httl]
  · intro data hdec
    simp [LoadUserInfo, hdec]
  · intro data userInfo cachedAt hdec httl
    simp [LoadUserInfo, hdec, httl]

/-- Closed instance for C4: a file holding a bare JSON string is rejected,
and a perfectly valid entry saved at time 0 is rejected when loaded more
than one TTL later. -/
theorem C4_load_never_errors_witness :
    Load (.content (Json.str "oops")) 0 = (none, false) ∧
    Load (.content (Json.obj [("project",
        encodeProject ⟨"p", "P", "", [], [], [], []⟩),
        ("cached_at", Json.num ((0 : Int) : ℚ))])) 90000 = (none, false) :=
  ⟨(C4_load_never_errors 0).2.2.1 (Json.str "oops") rfl,
   (C4_load_never_errors 90000).2.2.2.1 _ (some ⟨"p", "P", "", [], [], [], []⟩) 0
     (decodeCachedProject_Save ⟨"p", "P", "", [], [], [], []⟩ 0) (by decide)⟩

/-! ## Claims about the filter engine (C7, C8) -/

theorem includeBill_eq_all (filters : List (BillResponse → Bool)) (b : BillResponse) :
    includeBill filters b = filters.all (fun f => f b) := by
  induction filters with
  | nil => rfl
  | cons f rest ih =>
    simp only [includeBill, List.all_cons]
    cases h : f b <;> simp [ih]

/-- C7: `applyFilters` returns exactly the bills every predicate accepts, as
an in-order subsequence; an empty filter list returns the collection
unchanged; the short-circuiting conjunction agrees with evaluating all
predicates. -/
theorem C7_applyFilters_conjunctive :
    ∀ (bills : List BillResponse) (filters : List (BillResponse → Bool)),
      applyFilters bills filters = bills.filter (fun b => filters.all (fun f => f b)) ∧
      applyFilters bills [] = bills ∧
      (applyFilters bills filters).Sublist bills ∧
      (∀ b, includeBill filters b = filters.all (fun f => f b)) ∧
      (∀ b, includeBill filters b = true ↔ ∀ f ∈ filters, f b = true) := by
  intro bills filters
  have hfun : ∀ (fs : List (BillResponse → Bool)),
      applyFilters bills fs = bills.filter (fun b => fs.all (fun f => f b)) := by
    intro fs
    cases fs with
    | nil => simp [applyFilters]
    | cons f rest =>
      have : includeBill (f :: rest) = fun b => (f :: rest).all (fun f => f b) :=
        funext (includeBill_eq_all (f :: rest))
      simp only [applyFilters, List.isEmpty_cons, this]
      rw [if_neg (by simp)]
  refine ⟨hfun filters, by simp [applyFilters], ?_, includeBill_eq_all filters, ?_⟩
  · rw [hfun filters]
    exact List.filter_sublist bills
  · intro b
    rw [includeBill_eq_all filters b]
    exact List.all_eq_true

/-- Closed instance for C7: an empty filter list leaves the collection
unchanged. -/
theorem C7_applyFilters_conjunctive_witness :
    applyFilters [⟨1, "lunch", 5, "2026-01-01", 1, [], "", 0, 0, "n", 0⟩] [] =
      [⟨1, "lunch", 5, "2026-01-01", 1, [], "", 0, 0, "n", 0⟩] :=
  (C7_applyFilters_conjunctive [⟨1, "lunch", 5, "2026-01-01", 1, [], "", 0, 0, "n", 0⟩] []).2.1

/-- C8: the amount and date filters share the operand grammar — optional
prefix operator defaulting to `=`, then the trimmed operand — `>=50` gives a
predicate rejecting 49.99 and accepting 50, a bare `50` defaults to `=`, and
a non-numeric amount operand is a parse error before any predicate exists. -/
theorem C8_operator_grammar :
    (∀ (s op rest : String), splitOperand (strTrim s) = some (op, rest) →
      ∀ af, parseAmountFilter s = .ok af →
        af.operator = (if op == "" then "=" else op)) ∧
    (∀ (s op rest : String) (nowYear : Int), splitOperand (strTrim s) = some (op, rest) →
      ∀ df, parseDateFilter s nowYear = .ok df →
        df.operator = (if op == "" then "=" else op)) ∧
    (∀ (s op rest : String), splitOperand (strTrim s) = some (op, rest) →
      parseFloatQ (strTrim rest) = none →
      parseAmountFilter s = .error ("invalid amount value: " ++ rest)) ∧
    parseAmountFilter ">=50" = .ok ⟨">=", 50⟩ ∧
    matchAmount (mkRat 4999 100) ⟨">=", 50⟩ = false ∧
    matchAmount 50 ⟨">=", 50⟩ = true ∧
    parseAmountFilter "50" = .ok ⟨"=", 50⟩ ∧
    parseAmountFilter "abc" = .error "invalid amount value: abc" := by
  refine ⟨?_, ?_, ?_, by decide, by decide, by decide, by decide, by decide⟩
  · intro s op rest hsplit af haf
    simp only [parseAmountFilter, hsplit] at haf
    cases hp : parseFloatQ (strTrim rest) with
    | none => rw [hp] at haf; exact Except.noConfusion haf
    | some v =>
      rw [hp] at haf
      simp only [Except.ok.injEq] at haf
      rw [← haf]
  · intro s op rest nowYear hsplit df hdf
    simp only [parseDateFilter, hsplit] at hdf
    by_cases hfull : isValidFullDate (strTrim rest)
    · rw [if_pos hfull] at hdf
      simp only [Except.ok.injEq] at hdf
      rw [← hdf]
    · rw [if_neg hfull] at hdf
      cases hshort : parseShortDate (strTrim rest) with
      | none => rw [hshort] at hdf; exact Except.noConfusion hdf
      | some md =>
        rw [hshort] at hdf
        simp only [Except.ok.injEq] at hdf
        rw [← hdf]
  · intro s op rest hsplit hp
    simp only [parseAmountFilter, hsplit, hp]

/-- Closed instance for C8: the grammar conjuncts applied to `">=50"` and to
the malformed `">=x"`. -/
theorem C8_operator_grammar_witness :
    splitOperand (strTrim ">=50") = some (">=", "50") ∧
    parseAmountFilter ">=50" = .ok ⟨">=", 50⟩ ∧
    (⟨">=", (50 : ℚ)⟩ : amountFilter).operator = (if ">=" == "" then "=" else ">=") ∧
    parseAmountFilter ">=x" = .error "invalid amount value: x" := by
  refine ⟨by decide, by decide, ?_, ?_⟩
  · exact C8_operator_grammar.1 ">=50" ">=" "50" (by decide) ⟨">=", 50⟩ (by decide)
  · exact C8_operator_grammar.2.2.1 ">=x" ">=" "x" (by decide) (by decide)

/-! ## Claims about the recent filter and list limiting (C9, C10) -/

/-- C9: `parseRecent` accepts `<integer><unit>` with unit `d`, `w` (seven
days each) or `m` (calendar-month subtraction, not a fixed 30 days); `"2w"`
yields a cutoff of exactly `now` minus 14 days; the built predicate keeps
the bills with `date >= cutoff`, so a bill dated exactly at the cutoff
matches; and an operand that is too short, non-numeric, or has an unknown
unit is a parse error. -/
theorem C9_recent_filter :
    (∀ now : Int, parseRecent "2w" now = .ok (now - 14)) ∧
    (∀ (s : String) (now value : Int), strTrim s = s → 2 ≤ s.utf8ByteSize →
      atoiInt (String.mk s.toList.dropLast) = some value →
      (s.toList.getLast? = some 'd' →
        parseRecent s now = .ok (addDate now 0 0 (-value))) ∧
      (s.toList.getLast? = some 'w' →
        parseRecent s now = .ok (addDate now 0 0 (-(value * 7)))) ∧
      (s.toList.getLast? = some 'm' →
        parseRecent s now = .ok (addDate now 0 (-value) 0)) ∧
      (∀ u, s.toList.getLast? = some u → u ≠ 'd' → u ≠ 'w' → u ≠ 'm' →
        parseRecent s now =
          .error ("invalid recent unit: " ++ String.mk [u] ++ " (expected d, w, or m)"))) ∧
    (∀ now days : Int, addDate now 0 0 (-days) = now - days) ∧
    parseRecent "1m" (daysFromCivil 2026 3 31) = .ok (daysFromCivil 2026 3 3) ∧
    daysFromCivil 2026 3 3 ≠ daysFromCivil 2026 3 31 - 30 ∧
    (∀ (s : String) (now : Int), strTrim s = s → s.utf8ByteSize < 2 →
      ∃ e, parseRecent s now = .error e) ∧
    (∀ (s : String) (now : Int), strTrim s = s → 2 ≤ s.utf8ByteSize →
      atoiInt (String.mk s.toList.dropLast) = none →
      parseRecent s now =
        .error ("invalid recent value: " ++ String.mk s.toList.dropLast)) ∧
    (∀ (now : Int) (bill : BillResponse) (f : BillResponse → Bool),
      buildRecentFilter "2w" now = .ok f →
      (f bill = true ↔ strLt bill.date (formatDate (now - 14)) = false) ∧
      (bill.date = formatDate (now - 14) → f bill = true)) := by
  have h2w : ∀ now : Int, parseRecent "2w" now = .ok (now - 14) := by
    intro now
    have h0 : parseRecent "2w" now = .ok (addDate now 0 0 (-(2 * 7))) := rfl
    rw [h0, addDate_days]
    simp only [Except.ok.injEq]
    ring
  refine ⟨h2w, ?_, ?_, by decide, by decide, ?_, ?_, ?_⟩
  · intro s now value htrim hsize hval
    simp only [String.toList] at hval
    refine ⟨?_, ?_, ?_, ?_⟩
    · intro hunit
      simp only [parseRecent, htrim]
      rw [if_neg (by omega), hunit]
      simp [hval]
    · intro hunit
      simp only [parseRecent, htrim]
      rw [if_neg (by omega), hunit]
      simp [hval]
    · intro hunit
      simp only [parseRecent, htrim]
      rw [if_neg (by omega), hunit]
      simp [hval]
    · intro u hunit hd hw hm
      simp only [parseRecent, htrim]
      rw [if_neg (by omega), hunit]
      simp [hval, beq_eq_false_iff_ne.mpr hd, beq_eq_false_iff_ne.mpr hw,
        beq_eq_false_iff_ne.mpr hm]
  · intro now days
    rw [addDate_days]
    ring
  · intro s now htrim hlt
    refine ⟨"invalid recent format: " ++ s ++ " (expected e.g. 7d, 2w, 1m)", ?_⟩
    simp only [parseRecent, htrim]
    rw [if_pos hlt]
  · intro s now htrim hsize hnone
    simp only [String.toList] at hnone
    simp only [parseRecent, htrim]
    rw [if_neg (by omega)]
    cases hL : s.toList.getLast? with
    | none =>
      exfalso
      have hnil : s.toList = [] := List.getLast?_eq_none_iff.mp hL
      cases s with
      | mk data =>
        simp only [String.toList] at hnil
        subst hnil
        have : (String.mk ([] : List Char)).utf8ByteSize = 0 := by decide
        omega
    | some u =>
      simp [hnone, String.toList]
  · intro now bill f hf
    simp only [buildRecentFilter, h2w now, Except.ok.injEq] at hf
    subst hf
    constructor
    · simp [Bool.not_eq_true']
    · intro hdate
      simp only []
      rw [hdate, strLt_irrefl]
      rfl

/-- Closed instance for C9: the unit rules applied to `"3d"` at `now = 0`,
and the inclusive-boundary rule at a concrete date. -/
theorem C9_recent_filter_witness :
    parseRecent "3d" 0 = .ok (addDate 0 0 0 (-3)) ∧
    parseRecent "5x" 0 = .error "invalid recent unit: x (expected d, w, or m)" := by
  have h := C9_recent_filter.2.1 "3d" 0 3 (by decide) (by decide) (by decide)
  have he := C9_recent_filter.2.1 "5x" 0 5 (by decide) (by decide) (by decide)
  exact ⟨h.1 (by decide),
    (he.2.2.2 'x' (by decide) (by decide) (by decide) (by decide))⟩

/-- C10: the list command sorts the filtered bills newest-first by date
string with descending-timestamp tie-breaks, and only then truncates to the
first `limit` entries when the limit is positive; a zero or negative limit
keeps the whole (sorted) collection. -/
theorem C10_sort_then_limit :
    ∀ (limit : Int) (project : Project) (bills : List BillResponse),
      (sortBills bills).Perm bills ∧
      (sortBills bills).Pairwise (fun a b =>
        strLt b.date a.date = true ∨ (a.date = b.date ∧ b.timestamp ≤ a.timestamp)) ∧
      (0 < limit → resolveBillNames limit project bills =
        ((sortBills bills).take limit.toNat).map (resolveOneBill project)) ∧
      (limit ≤ 0 → resolveBillNames limit project bills =
        (sortBills bills).map (resolveOneBill project)) := by
  intro limit project bills
  refine ⟨List.mergeSort_perm bills billSortLe, ?_, ?_, ?_⟩
  · have h := @List.sorted_mergeSort BillResponse billSortLe
      billSortLe_trans billSortLe_total bills
    exact h.imp (fun hab => (billSortLe_iff _ _).1 hab)
  · intro hpos
    simp only [resolveBillNames]
    by_cases hlen : limit < ((sortBills bills).length : Int)
    · rw [if_pos ⟨hpos, hlen⟩]
    · rw [if_neg (fun hand => hlen hand.2),
        List.take_of_length_le (by omega : (sortBills bills).length ≤ limit.toNat)]
  · intro hneg
    simp only [resolveBillNames]
    rw [if_neg (fun hand => absurd hand.1 (by omega))]

/-- Closed instance for C10, with a positive limit on a two-bill list. -/
theorem C10_sort_then_limit_witness :
    resolveBillNames 1 ⟨"p", "P", "", [], [], [], []⟩
        [⟨1, "a", 1, "2026-01-01", 1, [], "", 0, 0, "n", 5⟩,
         ⟨2, "b", 2, "2026-02-01", 1, [], "", 0, 0, "n", 6⟩] =
      ((sortBills
          [⟨1, "a", 1, "2026-01-01", 1, [], "", 0, 0, "n", 5⟩,
           ⟨2, "b", 2, "2026-02-01", 1, [], "", 0, 0, "n", 6⟩]).take (1 : Int).toNat).map
        (resolveOneBill ⟨"p", "P", "", [], [], [], []⟩) :=
  (C10_sort_then_limit 1 ⟨"p", "P", "", [], [], [], []⟩
    [⟨1, "a", 1, "2026-01-01", 1, [], "", 0, 0, "n", 5⟩,
     ⟨2, "b", 2, "2026-02-01", 1, [], "", 0, 0, "n", 6⟩]).2.2.1 (by decide)

end Cospend
